import Mathlib

/-!
Shallow embedding of the rain_radar event-selection and calibration core
(src/event_selection.py).  Python floats are modelled as `Option ℚ`:
`none` models the IEEE NaN value (which arises in this program only through
`float(nan)` literals, statistics of NaN-containing data, and NaN inputs),
and `some q` models an ordinary finite float, with exact rational
arithmetic standing in for float arithmetic.  Timestamps are modelled as
rational numbers of seconds (Python datetimes form a totally ordered set
with subtraction into seconds, which is all the program uses).  Python
exceptions are modelled with `Except`.
-/

/-- A Python float value: `none` is NaN, `some q` a finite value. -/
abbrev FVal := Option ℚ

/-- Python comparison `x >= q` (False whenever x is NaN). -/
def fge (x : FVal) (q : ℚ) : Bool :=
  match x with
  | none => false
  | some a => decide (q ≤ a)

/-- Python comparison `x < y` (False whenever either side is NaN). -/
def fltB (x y : FVal) : Bool :=
  match x, y with
  | some a, some b => decide (a < b)
  | _, _ => false

/-- Python comparison `x <= y` (False whenever either side is NaN). -/
def fleB (x y : FVal) : Bool :=
  match x, y with
  | some a, some b => decide (a ≤ b)
  | _, _ => false

/-- Python two-argument `min(x, y)`: returns `y` exactly when `y < x`. -/
def fmin (x y : FVal) : FVal := if fltB y x then y else x

/-- Python two-argument `max(x, y)`: returns `y` exactly when `x < y`. -/
def fmax (x y : FVal) : FVal := if fltB x y then y else x

/-- Python `min(list)`: first element as initial accumulator, then fold. -/
def fminList : List FVal → FVal
  | [] => none
  | h :: t => t.foldl fmin h

/-- Python `max(list)`. -/
def fmaxList : List FVal → FVal
  | [] => none
  | h :: t => t.foldl fmax h

/-- Python float addition (NaN absorbs). -/
def fadd : FVal → FVal → FVal
  | some a, some b => some (a + b)
  | _, _ => none

/-- Sum of a list of floats, NaN-propagating. -/
def fsum (l : List FVal) : FVal := l.foldl fadd (some 0)

/-- `statistics.mean` of a list of floats: exact sum divided by length,
NaN if any element is NaN.  Only ever applied to non-empty lists. -/
def fmean (l : List FVal) : FVal :=
  match fsum l with
  | none => none
  | some s => some (s / l.length)

/-- Python `x * d` for a float `x` and integer `d`. -/
def fmulZ : FVal → ℤ → FVal
  | some a, d => some (a * d)
  | none, _ => none

/-- Python `x / d` for a float `x` and a nonzero integer `d`. -/
def fdivZ (x : FVal) (d : ℤ) : FVal :=
  match x with
  | none => none
  | some a => some (a / d)

/-- Python exceptions raised by the event-selection module. -/
inductive PyErr where
  | consistencyError
  | zeroDivisionError
  | indexError
  | reshapeError
  | lengthMismatchError
deriving Repr, DecidableEq

/-- The Event class of src/event_selection.py: a record of one rainfall
episode.  Times are rational seconds. -/
structure Event where
  start_time : ℚ
  end_time : ℚ
  duration : ℤ
  stations : List String
  num_stations : ℕ
  reflect_min : FVal
  reflect_avg : FVal
  reflect_max : FVal
  rain_intens_min : FVal
  rain_intens_avg : FVal
  rain_intens_max : FVal
  rain_cum_avg : FVal
  type : String
deriving Repr, DecidableEq

/-- `int((end_time - start_time).total_seconds() // 3600)`. -/
def eventDuration (s e : ℚ) : ℤ := Int.floor ((e - s) / 3600)

/-- The type classification in `Event.__init__` (NaN average compares
False against every threshold, hence lands in "extreme"). -/
def classify (avg : FVal) : String :=
  if fleB avg (some 5) then "light"
  else if fleB avg (some 25) then "moderate"
  else if fleB avg (some 50) then "heavy"
  else "extreme"

/-- `Event.__init__`: derives duration, num_stations, rain_cum_avg, type. -/
def mkEvent (s e : ℚ) (stations : List String)
    (rmin ravg rmax imin iavg imax : FVal) : Event :=
  { start_time := s
    end_time := e
    duration := eventDuration s e
    stations := stations
    num_stations := stations.length
    reflect_min := rmin
    reflect_avg := ravg
    reflect_max := rmax
    rain_intens_min := imin
    rain_intens_avg := iavg
    rain_intens_max := imax
    rain_cum_avg := fmulZ iavg (eventDuration s e)
    type := classify iavg }

/-- `merge_two_events`: the duration-weighted recombination.  The Python
division `(avg1*d1 + avg2*d2) / (d1 + d2)` raises ZeroDivisionError when
`d1 + d2 = 0`. -/
def merge_two_events (e1 e2 : Event) : Except PyErr Event :=
  if e1.duration + e2.duration = 0 then .error .zeroDivisionError
  else .ok (mkEvent (min e1.start_time e2.start_time) (max e1.end_time e2.end_time)
    (e1.stations ++ e2.stations)
    (fmin e1.reflect_min e2.reflect_min)
    (fdivZ (fadd (fmulZ e1.reflect_avg e1.duration) (fmulZ e2.reflect_avg e2.duration))
      (e1.duration + e2.duration))
    (fmax e1.reflect_max e2.reflect_max)
    (fmin e1.rain_intens_min e2.rain_intens_min)
    (fdivZ (fadd (fmulZ e1.rain_intens_avg e1.duration) (fmulZ e2.rain_intens_avg e2.duration))
      (e1.duration + e2.duration))
    (fmax e1.rain_intens_max e2.rain_intens_max))

/-- Stable insertion into a start_time-sorted list (models one step of
Python list.sort with key start_time, which is a stable sort). -/
def insertByStart (e : Event) : List Event → List Event
  | [] => [e]
  | h :: t => if h.start_time ≤ e.start_time then h :: insertByStart e t else e :: h :: t

/-- `events.sort(key=lambda e: e.start_time)`: a stable sort by start time. -/
def sortByStart (l : List Event) : List Event := l.foldr insertByStart []

/-- The accumulation loop of `merge_overlapping_events`: the Python code
keeps a result list and either replaces its last entry by a pairwise merge
or appends the current event. -/
def mergeLoop : Event → List Event → Except PyErr (List Event)
  | last, [] => .ok [last]
  | last, e :: es =>
    if e.start_time ≤ last.end_time then
      match merge_two_events last e with
      | .error err => .error err
      | .ok m => mergeLoop m es
    else
      match mergeLoop e es with
      | .error err => .error err
      | .ok r => .ok (last :: r)

/-- `merge_overlapping_events`: sorts, then calls `plot_single_events`
(which indexes `events[i]` for every i in range(100) and therefore raises
IndexError when fewer than 100 events are supplied), then folds the merge
loop starting from the first event. -/
def merge_overlapping_events (events : List Event) : Except PyErr (List Event) :=
  if (sortByStart events).length < 100 then .error .indexError
  else
    match sortByStart events with
    | [] => .error .indexError
    | e0 :: rest => mergeLoop e0 rest

/-- `min(list)/mean(list)/max(list)` of a value segment, with the Python
branch recording NaN statistics for an empty segment. -/
def statsOf (l : List FVal) : FVal × FVal × FVal :=
  if l = [] then (none, none, none) else (fminList l, fmean l, fmaxList l)

/-- The closure-processing block of `select_events_single_station`
(lines 107-157): given the candidate start index i, the gap-detection
index j, the accumulated candidate buffer and the consecutive-no-rain
counter, compute the event statistics; discard silently when the rain
average is NaN; otherwise construct the Event, run the temporal-resolution
consistency check (raising for a mismatch), and emit the event together
with the reflectivity and rain sample segments. -/
def processClosure (station : String) (ts : ℕ → ℚ) (radar : String → ℚ → ℚ → List FVal)
    (G : ℕ) (tres : String) (i j : ℕ) (cand : List FVal) (c : ℕ) :
    Except PyErr (Option (Event × List FVal × List FVal)) :=
  let start := ts i
  let endt := ts (j - G)
  let reflect_vals := (radar station start endt).dropLast
  let rstats := statsOf reflect_vals
  let rain_vals := cand.take (cand.length - c)
  let istats := statsOf rain_vals
  if istats.2.1 = none then .ok none
  else
    let ev := mkEvent start endt [station] rstats.1 rstats.2.1 rstats.2.2
      istats.1 istats.2.1 istats.2.2
    if tres = "6min" then
      if reflect_vals.length = 10 * rain_vals.length then .ok (some (ev, reflect_vals, rain_vals))
      else .error .consistencyError
    else if tres = "60min" ∨ tres = "1H" then
      if reflect_vals.length = rain_vals.length then .ok (some (ev, reflect_vals, rain_vals))
      else .error .consistencyError
    else .ok (some (ev, reflect_vals, rain_vals))

/-- The inner `for j in range(i, len(vals))` loop of the segmenter: append
each value to the candidate buffer, reset the consecutive-no-rain counter
on values at or above threshold, increment it otherwise, and report the
first index j at which the counter exceeds the gap tolerance, together
with the buffer and counter at that moment.  `none` means the series ended
with no closure.  The fuel argument only bounds the recursion: it is
always supplied as `vals.length + 1`, which exceeds the number of loop
steps (j strictly increases and the loop stops at `vals.length`), so the
fuel-exhausted branch coincides with the end-of-series branch. -/
def findClosure (vals : List FVal) (thr : ℚ) (G : ℕ) :
    ℕ → ℕ → List FVal → ℕ → Option (ℕ × List FVal × ℕ)
  | 0, _, _, _ => none
  | fuel + 1, j, cand, consec =>
    match vals[j]? with
    | none => none
    | some val =>
      let cand1 := cand ++ [val]
      if fge val thr then findClosure vals thr G fuel (j + 1) cand1 0
      else if G < consec + 1 then some (j, cand1, consec + 1)
      else findClosure vals thr G fuel (j + 1) cand1 (consec + 1)

/-- The outer `while i < len(vals)` loop of the segmenter.  When a value at
or above threshold is found at i, the inner loop runs; if it closes the
candidate at index j, the closure is processed and — because the source
assigns `i = j + 1`, breaks, and then still executes the unconditional
`i += 1` of the while body — the scan resumes at `j + 2`.  The fuel is
always supplied as `vals.length + 1`; the scan index strictly increases on
every step, so fuel exhaustion coincides with the end-of-series exit. -/
def scanFrom (station : String) (vals : List FVal) (ts : ℕ → ℚ)
    (radar : String → ℚ → ℚ → List FVal) (G : ℕ) (thr : ℚ) (tres : String) :
    ℕ → ℕ → Except PyErr (List Event × List FVal × List FVal)
  | 0, _ => .ok ([], [], [])
  | fuel + 1, i =>
    match vals[i]? with
    | none => .ok ([], [], [])
    | some v =>
      if fge v thr then
        match findClosure vals thr G (vals.length + 1) i [] 0 with
        | none => scanFrom station vals ts radar G thr tres fuel (i + 1)
        | some (j, cand, c) =>
          match processClosure station ts radar G tres i j cand c with
          | .error err => .error err
          | .ok none => scanFrom station vals ts radar G thr tres fuel (j + 2)
          | .ok (some (ev, refl, rain)) =>
            match scanFrom station vals ts radar G thr tres fuel (j + 2) with
            | .error err => .error err
            | .ok (evs, Zs, Rs) => .ok (ev :: evs, refl ++ Zs, rain ++ Rs)
      else scanFrom station vals ts radar G thr tres fuel (i + 1)

/-- `select_events_single_station`.  `vals` is the station rain series,
`ts` the shared timestamp index, `radar` the reflectivity lookup
`radar_df.loc[start:end][station].values`, `G` the gap tolerance
`max_no_rain`, `thr` the rain threshold and `tres` the temporal_res
string. -/
def select_events_single_station (station : String) (vals : List FVal) (ts : ℕ → ℚ)
    (radar : String → ℚ → ℚ → List FVal) (G : ℕ) (thr : ℚ) (tres : String) :
    Except PyErr (List Event × List FVal × List FVal) :=
  scanFrom station vals ts radar G thr tres (vals.length + 1) 0

/-- The per-station driver loop of `select_all_events`: run the segmenter
on every station column and concatenate events and sample lists. -/
def runStations (ts : ℕ → ℚ) (radar : String → ℚ → ℚ → List FVal) (G : ℕ) (thr : ℚ) :
    List (String × List FVal) → Except PyErr (List Event × List FVal × List FVal)
  | [] => .ok ([], [], [])
  | (st, vals) :: rest =>
    match select_events_single_station st vals ts radar G thr "6min" with
    | .error err => .error err
    | .ok (e1, z1, r1) =>
      match runStations ts radar G thr rest with
      | .error err => .error err
      | .ok (e2, z2, r2) => .ok (e1 ++ e2, z1 ++ z2, r1 ++ r2)

/-- Helper for `np.reshape` into rows of 10: the length argument bounds the
recursion (each step consumes at least one element). -/
def chunkAux : ℕ → List FVal → List (List FVal)
  | 0, _ => []
  | _, [] => []
  | n + 1, l => l.take 10 :: chunkAux n (l.drop 10)

/-- `Z.reshape((len(Z)//10, 10))`: numpy raises when the length is not a
multiple of 10. -/
def reshape10 (Z : List FVal) : Except PyErr (List (List FVal)) :=
  if Z.length % 10 = 0 then .ok (chunkAux Z.length Z) else .error .reshapeError

/-- `select_all_events`: run all stations, merge when more than one event
exists, reshape the flat reflectivity list into rows of 10, check the
row count against the rain-sample count, then apply the four cleaning
filters (numpy `!= 0` is True on NaN, so NaN survives the zero filters and
is removed by the NaN filters).  The filters apply one boolean mask to
both arrays, which on equal-length arrays is filtering the zipped pairs. -/
def select_all_events (stationsData : List (String × List FVal)) (ts : ℕ → ℚ)
    (radar : String → ℚ → ℚ → List FVal) (G : ℕ) (thr : ℚ) :
    Except PyErr (List Event × List (List FVal) × List FVal) :=
  match runStations ts radar G thr stationsData with
  | .error err => .error err
  | .ok (events0, Z, R) =>
    let mergedE : Except PyErr (List Event) :=
      if 1 < events0.length then merge_overlapping_events events0 else .ok events0
    match mergedE with
    | .error err => .error err
    | .ok events =>
      match reshape10 Z with
      | .error err => .error err
      | .ok rows =>
        if rows.length = R.length then
          let pairs0 := rows.zip R
          let pairs1 := pairs0.filter (fun p => p.1.all (fun z => decide (z ≠ some 0)))
          let pairs2 := pairs1.filter (fun p => p.1.all (fun z => decide (z ≠ none)))
          let pairs3 := pairs2.filter (fun p => decide (p.2 ≠ some 0))
          let pairs4 := pairs3.filter (fun p => decide (p.2 ≠ none))
          .ok (events, pairs4.map Prod.fst, pairs4.map Prod.snd)
        else .error .lengthMismatchError

/-! ### Concrete inputs used to evaluate the embedding -/

/-- Hourly timestamps: index n maps to 3600·n seconds. -/
def tsHour : ℕ → ℚ := fun n => 3600 * n

/-- A radar lookup returning eleven unit reflectivity samples for every
queried range (ten survive the trailing-row drop). -/
def radarConst11 : String → ℚ → ℚ → List FVal := fun _ _ _ => List.replicate 11 (some 1)

/-- A radar lookup with no rows in any queried range. -/
def radarEmptyLookup : String → ℚ → ℚ → List FVal := fun _ _ _ => []

/-- A radar lookup returning two unit reflectivity samples for every
queried range (one survives the trailing-row drop). -/
def radarConst2 : String → ℚ → ℚ → List FVal := fun _ _ _ => List.replicate 2 (some 1)

/-- A radar lookup returning eleven NaN samples for every queried range. -/
def radarNaN11 : String → ℚ → ℚ → List FVal := fun _ _ _ => List.replicate 11 none

/-- The event list of a segmenter result (empty on error). -/
def eventsOf (r : Except PyErr (List Event × List FVal × List FVal)) : List Event :=
  match r with
  | .ok (evs, _, _) => evs
  | .error _ => []

/-- Rain series 0.2, 0, 0, 0, 0.5, 0, 0, 0: the first candidate closes at
j = 3 with gap tolerance 2, and index 4 holds a fresh above-threshold
value. -/
def valsSkip : List FVal :=
  [some (1/5), some 0, some 0, some 0, some (1/2), some 0, some 0, some 0]

/-- Rain series 0.2, NaN, 0.3, 0, 0, 0: the candidate closing at j = 5
keeps the NaN inside its rain segment, so its mean is NaN. -/
def valsNanGap : List FVal := [some (1/5), none, some (3/10), some 0, some 0, some 0]

/-- Rain series 0.2, 0, 0, 0: one candidate closing at j = 3. -/
def valsShort : List FVal := [some (1/5), some 0, some 0, some 0]

/-- Rain series 0.3, 0, 0, 0: one candidate closing at j = 3. -/
def valsShort2 : List FVal := [some (3/10), some 0, some 0, some 0]

/-- Rain series 1, 0, 0, 0: one candidate closing at j = 3, all
statistics equal to 1. -/
def valsOne : List FVal := [some 1, some 0, some 0, some 0]

/-- The event emitted by the segmenter on `valsOne` with `radarConst11`. -/
def evOneOut : Event :=
  mkEvent 0 3600 ["A"] (some 1) (some 1) (some 1) (some 1) (some 1) (some 1)

/-- A half-hour event: duration floor(1800/3600) = 0. -/
def evHalfHourA : Event := mkEvent 0 1800 ["a"] (some 1) (some 2) (some 3) (some 1) (some 2) (some 3)

/-- Another half-hour event with the same (zero) duration. -/
def evHalfHourB : Event := mkEvent 900 2700 ["b"] (some 2) (some 3) (some 4) (some 2) (some 3) (some 4)

/-- A one-hour event. -/
def evHour : Event := mkEvent 0 3600 ["a"] (some 1) (some 2) (some 3) (some 1) (some 2) (some 3)

/-- A family of pairwise non-overlapping one-hour events on a 2-hour grid. -/
def evGrid (n : ℕ) : Event :=
  mkEvent (7200 * n) (7200 * n + 3600) ["s"] (some 1) (some 1) (some 1) (some 1) (some 1) (some 1)

/-- One hundred non-overlapping events sorted by start time. -/
def evts100 : List Event := (List.range 100).map evGrid

/-- The merge of `evHour` with itself. -/
def evHourMerged : Event :=
  mkEvent 0 3600 ["a", "a"] (some 1) (some 2) (some 3) (some 1) (some 2) (some 3)

/-! ### Helper lemmas about the float model -/

theorem fadd_none_left (x : FVal) : fadd none x = none := by cases x <;> rfl

theorem fadd_none_right (x : FVal) : fadd x none = none := by cases x <;> rfl

theorem foldl_fadd_none (l : List FVal) : l.foldl fadd none = none := by
  induction l with
  | nil => rfl
  | cons h t ih => simpa [fadd_none_left] using ih

theorem foldl_fadd_ne_none : ∀ (l : List FVal) (a : ℚ),
    l.foldl fadd (some a) ≠ none → ∀ x ∈ l, x ≠ none := by
  intro l
  induction l with
  | nil => intro a _ x hx; cases hx
  | cons h t ih =>
    intro a hne x hx
    cases h with
    | none =>
      exfalso
      apply hne
      simpa [fadd_none_right] using foldl_fadd_none t
    | some b =>
      rcases List.mem_cons.mp hx with rfl | hxt
      · exact Option.some_ne_none b
      · exact ih (a + b) (by simpa [fadd] using hne) x hxt

theorem fmean_ne_none_all_some (l : List FVal) (h : fmean l ≠ none) :
    ∀ x ∈ l, x ≠ none := by
  have hs : fsum l ≠ none := by
    intro hc
    apply h
    simp [fmean, hc]
  exact foldl_fadd_ne_none l 0 hs

theorem exists_map_some : ∀ (l : List FVal), (∀ x ∈ l, x ≠ none) →
    ∃ m : List ℚ, l = m.map some := by
  intro l
  induction l with
  | nil => intro _; exact ⟨[], rfl⟩
  | cons h t ih =>
    intro hall
    obtain ⟨m, hm⟩ := ih (fun x hx => hall x (List.mem_cons_of_mem h hx))
    cases h with
    | none => exact absurd rfl (hall none (List.mem_cons_self none t))
    | some b => exact ⟨b :: m, by simp [hm]⟩

theorem fmin_some_some (a b : ℚ) : fmin (some a) (some b) = some (min a b) := by
  by_cases h : b < a
  · simp [fmin, fltB, h, min_eq_right h.le]
  · simp [fmin, fltB, h, min_eq_left (not_lt.mp h)]

theorem fmax_some_some (a b : ℚ) : fmax (some a) (some b) = some (max a b) := by
  by_cases h : a < b
  · simp [fmax, fltB, h, max_eq_right h.le]
  · simp [fmax, fltB, h, max_eq_left (not_lt.mp h)]

theorem foldl_fmin_map_some : ∀ (t : List ℚ) (a : ℚ),
    (t.map some).foldl fmin (some a) = some (t.foldl min a) := by
  intro t
  induction t with
  | nil => intro a; rfl
  | cons h t ih => intro a; simp [fmin_some_some, ih]

theorem foldl_fmax_map_some : ∀ (t : List ℚ) (a : ℚ),
    (t.map some).foldl fmax (some a) = some (t.foldl max a) := by
  intro t
  induction t with
  | nil => intro a; rfl
  | cons h t ih => intro a; simp [fmax_some_some, ih]

theorem foldl_fadd_map_some : ∀ (t : List ℚ) (a : ℚ),
    (t.map some).foldl fadd (some a) = some (t.foldl (· + ·) a) := by
  intro t
  induction t with
  | nil => intro a; rfl
  | cons h t ih => intro a; simp [fadd, ih]

theorem foldl_min_le_init : ∀ (t : List ℚ) (a : ℚ), t.foldl min a ≤ a := by
  intro t
  induction t with
  | nil => intro a; exact le_refl a
  | cons h t ih => intro a; exact le_trans (ih (min a h)) (min_le_left a h)

theorem foldl_min_le_mem : ∀ (t : List ℚ) (a : ℚ), ∀ x ∈ t, t.foldl min a ≤ x := by
  intro t
  induction t with
  | nil => intro a x hx; cases hx
  | cons h t ih =>
    intro a x hx
    rcases List.mem_cons.mp hx with rfl | hxt
    · exact le_trans (foldl_min_le_init t (min a x)) (min_le_right a x)
    · exact ih (min a h) x hxt

theorem le_foldl_max_init : ∀ (t : List ℚ) (a : ℚ), a ≤ t.foldl max a := by
  intro t
  induction t with
  | nil => intro a; exact le_refl a
  | cons h t ih => intro a; exact le_trans (le_max_left a h) (ih (max a h))

theorem le_foldl_max_mem : ∀ (t : List ℚ) (a : ℚ), ∀ x ∈ t, x ≤ t.foldl max a := by
  intro t
  induction t with
  | nil => intro a x hx; cases hx
  | cons h t ih =>
    intro a x hx
    rcases List.mem_cons.mp hx with rfl | hxt
    · exact le_trans (le_max_right a x) (le_foldl_max_init t (max a x))
    · exact ih (max a h) x hxt

theorem foldl_add_lower : ∀ (t : List ℚ) (a c : ℚ), (∀ x ∈ t, c ≤ x) →
    (t.length : ℚ) * c + a ≤ t.foldl (· + ·) a := by
  intro t
  induction t with
  | nil => intro a c _; simp
  | cons h t ih =>
    intro a c hall
    have hh : c ≤ h := hall h (List.mem_cons_self h t)
    have := ih (a + h) c (fun x hx => hall x (List.mem_cons_of_mem h hx))
    calc ((h :: t).length : ℚ) * c + a = (t.length : ℚ) * c + (a + c) := by
          push_cast [List.length_cons]; ring
      _ ≤ (t.length : ℚ) * c + (a + h) := by linarith
      _ ≤ (h :: t).foldl (· + ·) a := by simpa using this

theorem foldl_add_upper : ∀ (t : List ℚ) (a c : ℚ), (∀ x ∈ t, x ≤ c) →
    t.foldl (· + ·) a ≤ (t.length : ℚ) * c + a := by
  intro t
  induction t with
  | nil => intro a c _; simp
  | cons h t ih =>
    intro a c hall
    have hh : h ≤ c := hall h (List.mem_cons_self h t)
    have := ih (a + h) c (fun x hx => hall x (List.mem_cons_of_mem h hx))
    calc (h :: t).foldl (· + ·) a ≤ (t.length : ℚ) * c + (a + h) := by simpa using this
      _ ≤ (t.length : ℚ) * c + (a + c) := by linarith
      _ = ((h :: t).length : ℚ) * c + a := by push_cast [List.length_cons]; ring

/-- The min-mean-max chain for a non-empty NaN-free segment, under the
source statistics functions. -/
theorem statsOf_chain (l : List FVal) (hne : l ≠ []) (hall : ∀ x ∈ l, x ≠ none) :
    fleB (fminList l) (fmean l) = true ∧ fleB (fmean l) (fmaxList l) = true := by
  obtain ⟨m, rfl⟩ := exists_map_some l hall
  cases m with
  | nil => exact absurd rfl hne
  | cons h t =>
    have hmin : fminList ((h :: t).map some) = some (t.foldl min h) := by
      simpa [fminList] using foldl_fmin_map_some t h
    have hmax : fmaxList ((h :: t).map some) = some (t.foldl max h) := by
      simpa [fmaxList] using foldl_fmax_map_some t h
    have hsum : fsum ((h :: t).map some) = some (t.foldl (· + ·) (0 + h)) := by
      simpa [fsum, fadd] using foldl_fadd_map_some t (0 + h)
    have hlen : (((h :: t).map some).length : ℚ) = (t.length : ℚ) + 1 := by
      push_cast [List.length_map, List.length_cons]; ring
    have hmean : fmean ((h :: t).map some) =
        some (t.foldl (· + ·) (0 + h) / ((t.length : ℚ) + 1)) := by
      rw [fmean, hsum, hlen]
    have hnpos : (0 : ℚ) < (t.length : ℚ) + 1 := by positivity
    constructor
    · rw [hmin, hmean]
      simp only [fleB, decide_eq_true_eq]
      rw [le_div_iff₀ hnpos]
      have h1 : t.foldl min h ≤ h := foldl_min_le_init t h
      have h2 := foldl_add_lower t (0 + h) (t.foldl min h) (foldl_min_le_mem t h)
      calc t.foldl min h * ((t.length : ℚ) + 1)
          = (t.length : ℚ) * t.foldl min h + t.foldl min h := by ring
        _ ≤ (t.length : ℚ) * t.foldl min h + (0 + h) := by linarith
        _ ≤ t.foldl (· + ·) (0 + h) := h2
    · rw [hmax, hmean]
      simp only [fleB, decide_eq_true_eq]
      rw [div_le_iff₀ hnpos]
      have h1 : h ≤ t.foldl max h := le_foldl_max_init t h
      have h2 := foldl_add_upper t (0 + h) (t.foldl max h) (le_foldl_max_mem t h)
      calc t.foldl (· + ·) (0 + h)
          ≤ (t.length : ℚ) * t.foldl max h + (0 + h) := h2
        _ ≤ (t.length : ℚ) * t.foldl max h + t.foldl max h := by linarith
        _ = t.foldl max h * ((t.length : ℚ) + 1) := by ring

theorem fminList_ne_none (l : List FVal) (hne : l ≠ []) (hall : ∀ x ∈ l, x ≠ none) :
    fminList l ≠ none := by
  obtain ⟨m, rfl⟩ := exists_map_some l hall
  cases m with
  | nil => exact absurd rfl hne
  | cons h t => simp [fminList, foldl_fmin_map_some t h]

theorem fmaxList_ne_none (l : List FVal) (hne : l ≠ []) (hall : ∀ x ∈ l, x ≠ none) :
    fmaxList l ≠ none := by
  obtain ⟨m, rfl⟩ := exists_map_some l hall
  cases m with
  | nil => exact absurd rfl hne
  | cons h t => simp [fmaxList, foldl_fmax_map_some t h]

/-! ### The inner-loop invariant of the segmenter -/

/-- Invariant of the inner scanning loop: if the counter currently stands
at `consec ≤ G` and the `consec` values just before index j are below
threshold, then a reported closure at index jc lies within the series and
all values at indices `jc - G .. jc` are below threshold. -/
theorem findClosure_below (vals : List FVal) (thr : ℚ) (G : ℕ) :
    ∀ (fuel j : ℕ) (cand : List FVal) (consec : ℕ) (jc : ℕ) (candc : List FVal) (cc : ℕ),
    consec ≤ G →
    (∀ k, j - consec ≤ k → k < j → ∀ w, vals[k]? = some w → fge w thr = false) →
    findClosure vals thr G fuel j cand consec = some (jc, candc, cc) →
    j ≤ jc ∧ jc < vals.length ∧
      ∀ k, jc - G ≤ k → k ≤ jc → ∀ w, vals[k]? = some w → fge w thr = false := by
  intro fuel
  induction fuel with
  | zero =>
    intro j cand consec jc candc cc _ _ h
    simp [findClosure] at h
  | succ fuel ih =>
    intro j cand consec jc candc cc hcle hwin h
    rw [findClosure] at h
    cases hj : vals[j]? with
    | none => rw [hj] at h; exact absurd h (by simp)
    | some val =>
      rw [hj] at h
      simp only at h
      have hjlen : j < vals.length := (List.getElem?_eq_some.mp hj).choose
      by_cases hge : fge val thr
      · rw [if_pos hge] at h
        have hres := ih (j + 1) (cand ++ [val]) 0 jc candc cc (Nat.zero_le G)
          (fun k hk1 hk2 => absurd (lt_of_le_of_lt (by omega : j + 1 ≤ k) hk2)
            (lt_irrefl (j + 1))) h
        exact ⟨by omega, hres.2.1, hres.2.2⟩
      · rw [if_neg hge] at h
        by_cases hG : G < consec + 1
        · rw [if_pos hG] at h
          simp only [Option.some.injEq, Prod.mk.injEq] at h
          obtain ⟨h1, _, _⟩ := h
          subst h1
          have hcG : consec = G := by omega
          refine ⟨le_refl j, hjlen, ?_⟩
          intro k hk1 hk2 w hw
          rcases Nat.lt_or_ge k j with hklt | hkge
          · exact hwin k (by omega) hklt w hw
          · have hkj : k = j := by omega
            subst hkj
            rw [hj] at hw
            have : w = val := by simpa using hw.symm
            subst this
            exact Bool.not_eq_true _ ▸ (by simpa using hge)
        · rw [if_neg hG] at h
          have hres := ih (j + 1) (cand ++ [val]) (consec + 1) jc candc cc (by omega)
            ?_ h
          · exact ⟨by omega, hres.2.1, hres.2.2⟩
          · intro k hk1 hk2 w hw
            rcases Nat.lt_or_ge k j with hklt | hkge
            · exact hwin k (by omega) hklt w hw
            · have hkj : k = j := by omega
              subst hkj
              rw [hj] at hw
              have : w = val := by simpa using hw.symm
              subst this
              simpa using hge

/-- Closure detection that starts at a value at or above threshold closes
strictly more than G steps later: the event end index `jc - G` lies
strictly after the candidate start index i. -/
theorem findClosure_start (vals : List FVal) (thr : ℚ) (G : ℕ) (fuel i : ℕ) (v : FVal)
    (jc : ℕ) (candc : List FVal) (cc : ℕ)
    (hv : vals[i]? = some v) (hge : fge v thr = true)
    (h : findClosure vals thr G fuel i [] 0 = some (jc, candc, cc)) :
    i < jc - G ∧ jc < vals.length := by
  have hres := findClosure_below vals thr G fuel i [] 0 jc candc cc (Nat.zero_le G)
    (fun k hk1 hk2 => absurd (lt_of_le_of_lt (by omega : i ≤ k) hk2) (lt_irrefl i)) h
  refine ⟨?_, hres.2.1⟩
  by_contra hcon
  have hile : jc - G ≤ i := by omega
  have hfalse := hres.2.2 i hile hres.1 v hv
  rw [hge] at hfalse
  simp at hfalse

/-! ### Characterizing closure processing and emitted events -/

theorem statsOf_components (l : List FVal) (h : (statsOf l).2.1 ≠ none) :
    l ≠ [] ∧ (statsOf l).1 = fminList l ∧ (statsOf l).2.1 = fmean l ∧
      (statsOf l).2.2 = fmaxList l := by
  by_cases hl : l = []
  · subst hl; simp [statsOf] at h
  · refine ⟨hl, ?_, ?_, ?_⟩ <;> simp [statsOf, hl]

/-- Every successful emission of `processClosure` is the Event built from
the reflectivity and rain statistics of the closed candidate, the rain
segment is non-empty with non-NaN mean, and in 6-minute mode the emitted
segments satisfy the 10-to-1 length relation. -/
theorem processClosure_ok_some (station : String) (ts : ℕ → ℚ)
    (radar : String → ℚ → ℚ → List FVal) (G : ℕ) (tres : String) (i j : ℕ)
    (cand : List FVal) (c : ℕ) (ev : Event) (refl rain : List FVal)
    (h : processClosure station ts radar G tres i j cand c = .ok (some (ev, refl, rain))) :
    refl = (radar station (ts i) (ts (j - G))).dropLast ∧
    rain = cand.take (cand.length - c) ∧
    rain ≠ [] ∧ fmean rain ≠ none ∧
    ev = mkEvent (ts i) (ts (j - G)) [station]
      (statsOf refl).1 (statsOf refl).2.1 (statsOf refl).2.2
      (fminList rain) (fmean rain) (fmaxList rain) ∧
    (tres = "6min" → refl.length = 10 * rain.length) := by
  simp only [processClosure] at h
  by_cases hnan : (statsOf (cand.take (cand.length - c))).2.1 = none
  · rw [if_pos hnan] at h
    exact absurd h (by simp)
  · rw [if_neg hnan] at h
    obtain ⟨hne, hmin, hmean, hmax⟩ := statsOf_components _ hnan
    by_cases ht6 : tres = "6min"
    · rw [if_pos ht6] at h
      by_cases hlen : ((radar station (ts i) (ts (j - G))).dropLast).length =
          10 * (cand.take (cand.length - c)).length
      · rw [if_pos hlen] at h
        simp only [Except.ok.injEq, Option.some.injEq, Prod.mk.injEq] at h
        obtain ⟨hev, hrefl, hrain⟩ := h
        subst hrefl; subst hrain
        refine ⟨rfl, rfl, hne, ?_, ?_, fun _ => hlen⟩
        · rw [← hmean]; exact hnan
        · rw [← hev, hmin, hmean, hmax]
      · rw [if_neg hlen] at h
        exact absurd h (by simp)
    · rw [if_neg ht6] at h
      by_cases ht60 : tres = "60min" ∨ tres = "1H"
      · rw [if_pos ht60] at h
        by_cases hlen : ((radar station (ts i) (ts (j - G))).dropLast).length =
            (cand.take (cand.length - c)).length
        · rw [if_pos hlen] at h
          simp only [Except.ok.injEq, Option.some.injEq, Prod.mk.injEq] at h
          obtain ⟨hev, hrefl, hrain⟩ := h
          subst hrefl; subst hrain
          refine ⟨rfl, rfl, hne, ?_, ?_, fun hc => absurd hc ht6⟩
          · rw [← hmean]; exact hnan
          · rw [← hev, hmin, hmean, hmax]
        · rw [if_neg hlen] at h
          exact absurd h (by simp)
      · rw [if_neg ht60] at h
        simp only [Except.ok.injEq, Option.some.injEq, Prod.mk.injEq] at h
        obtain ⟨hev, hrefl, hrain⟩ := h
        subst hrefl; subst hrain
        refine ⟨rfl, rfl, hne, ?_, ?_, fun hc => absurd hc ht6⟩
        · rw [← hmean]; exact hnan
        · rw [← hev, hmin, hmean, hmax]

/-- Every event in the output of the scanning loop arises from a closure:
a start index whose value is at or above threshold, a closure of the inner
loop from that start, and a successful emission of that closure. -/
theorem scanFrom_mem (station : String) (vals : List FVal) (ts : ℕ → ℚ)
    (radar : String → ℚ → ℚ → List FVal) (G : ℕ) (thr : ℚ) (tres : String) :
    ∀ (fuel i : ℕ) (evs : List Event) (Z R : List FVal),
    scanFrom station vals ts radar G thr tres fuel i = .ok (evs, Z, R) →
    ∀ e ∈ evs, ∃ (i1 j : ℕ) (v : FVal) (cand : List FVal) (c : ℕ) (refl rain : List FVal),
      vals[i1]? = some v ∧ fge v thr = true ∧
      findClosure vals thr G (vals.length + 1) i1 [] 0 = some (j, cand, c) ∧
      processClosure station ts radar G tres i1 j cand c = .ok (some (e, refl, rain)) := by
  intro fuel
  induction fuel with
  | zero =>
    intro i evs Z R h e he
    rw [scanFrom] at h
    simp only [Except.ok.injEq, Prod.mk.injEq] at h
    obtain ⟨h1, _, _⟩ := h
    subst h1
    cases he
  | succ fuel ih =>
    intro i evs Z R h e he
    rw [scanFrom] at h
    cases hvi : vals[i]? with
    | none =>
      rw [hvi] at h
      simp only [Except.ok.injEq, Prod.mk.injEq] at h
      obtain ⟨h1, _, _⟩ := h
      subst h1
      cases he
    | some v =>
      rw [hvi] at h
      simp only at h
      by_cases hge : fge v thr
      · rw [if_pos hge] at h
        cases hfc : findClosure vals thr G (vals.length + 1) i [] 0 with
        | none =>
          rw [hfc] at h
          exact ih (i + 1) evs Z R h e he
        | some jcc =>
          obtain ⟨j, cand, c⟩ := jcc
          rw [hfc] at h
          simp only at h
          cases hpc : processClosure station ts radar G tres i j cand c with
          | error err => rw [hpc] at h; exact absurd h (by simp)
          | ok emitted =>
            rw [hpc] at h
            cases emitted with
            | none =>
              simp only at h
              exact ih (j + 2) evs Z R h e he
            | some res =>
              obtain ⟨ev, refl0, rain0⟩ := res
              simp only at h
              cases hrec : scanFrom station vals ts radar G thr tres fuel (j + 2) with
              | error err => rw [hrec] at h; exact absurd h (by simp)
              | ok rest =>
                obtain ⟨evs1, Zs, Rs⟩ := rest
                rw [hrec] at h
                simp only [Except.ok.injEq, Prod.mk.injEq] at h
                obtain ⟨h1, _, _⟩ := h
                subst h1
                rcases List.mem_cons.mp he with rfl | hmem
                · exact ⟨i, j, v, cand, c, refl0, rain0, hvi, hge, hfc, hpc⟩
                · exact ih (j + 2) evs1 Zs Rs hrec e hmem
      · rw [if_neg hge] at h
        exact ih (i + 1) evs Z R h e he

/-- In 6-minute mode every successful scan returns flat sample lists with
exactly ten reflectivity sub-samples per rain sample: each emitted segment
passed the per-event consistency check and nothing else is appended. -/
theorem scanFrom_lengths_6min (station : String) (vals : List FVal) (ts : ℕ → ℚ)
    (radar : String → ℚ → ℚ → List FVal) (G : ℕ) (thr : ℚ) :
    ∀ (fuel i : ℕ) (evs : List Event) (Z R : List FVal),
    scanFrom station vals ts radar G thr "6min" fuel i = .ok (evs, Z, R) →
    Z.length = 10 * R.length := by
  intro fuel
  induction fuel with
  | zero =>
    intro i evs Z R h
    rw [scanFrom] at h
    simp only [Except.ok.injEq, Prod.mk.injEq] at h
    obtain ⟨_, h2, h3⟩ := h
    subst h2; subst h3
    rfl
  | succ fuel ih =>
    intro i evs Z R h
    rw [scanFrom] at h
    cases hvi : vals[i]? with
    | none =>
      rw [hvi] at h
      simp only [Except.ok.injEq, Prod.mk.injEq] at h
      obtain ⟨_, h2, h3⟩ := h
      subst h2; subst h3
      rfl
    | some v =>
      rw [hvi] at h
      simp only at h
      by_cases hge : fge v thr
      · rw [if_pos hge] at h
        cases hfc : findClosure vals thr G (vals.length + 1) i [] 0 with
        | none =>
          rw [hfc] at h
          exact ih (i + 1) evs Z R h
        | some jcc =>
          obtain ⟨j, cand, c⟩ := jcc
          rw [hfc] at h
          simp only at h
          cases hpc : processClosure station ts radar G "6min" i j cand c with
          | error err => rw [hpc] at h; exact absurd h (by simp)
          | ok emitted =>
            rw [hpc] at h
            cases emitted with
            | none =>
              simp only at h
              exact ih (j + 2) evs Z R h
            | some res =>
              obtain ⟨ev, refl0, rain0⟩ := res
              simp only at h
              cases hrec : scanFrom station vals ts radar G thr "6min" fuel (j + 2) with
              | error err => rw [hrec] at h; exact absurd h (by simp)
              | ok rest =>
                obtain ⟨evs1, Zs, Rs⟩ := rest
                rw [hrec] at h
                simp only [Except.ok.injEq, Prod.mk.injEq] at h
                obtain ⟨_, h2, h3⟩ := h
                subst h2; subst h3
                have hseg := (processClosure_ok_some station ts radar G "6min" i j cand c
                  ev refl0 rain0 hpc).2.2.2.2.2 rfl
                have hrest := ih (j + 2) evs1 Zs Rs hrec
                simp only [List.length_append]
                omega
      · rw [if_neg hge] at h
        exact ih (i + 1) evs Z R h

theorem emitted_event_fields (station : String) (ts : ℕ → ℚ)
    (radar : String → ℚ → ℚ → List FVal) (G : ℕ) (tres : String) (i j : ℕ)
    (cand : List FVal) (c : ℕ) (ev : Event) (refl rain : List FVal)
    (h : processClosure station ts radar G tres i j cand c = .ok (some (ev, refl, rain))) :
    ev.start_time = ts i ∧ ev.end_time = ts (j - G) ∧
    ev.rain_intens_min = fminList rain ∧ ev.rain_intens_avg = fmean rain ∧
    ev.rain_intens_max = fmaxList rain ∧
    ev.reflect_min = (statsOf refl).1 ∧ ev.reflect_avg = (statsOf refl).2.1 ∧
    ev.reflect_max = (statsOf refl).2.2 ∧
    rain ≠ [] ∧ fmean rain ≠ none := by
  obtain ⟨_, _, hne, hmean, hev, _⟩ := processClosure_ok_some station ts radar G tres
    i j cand c ev refl rain h
  subst hev
  refine ⟨rfl, rfl, rfl, rfl, rfl, rfl, rfl, rfl, hne, hmean⟩

/-- The rain-intensity statistics of every emitted event are non-NaN and
satisfy the min-mean-max chain. -/
theorem emitted_rain_props (station : String) (ts : ℕ → ℚ)
    (radar : String → ℚ → ℚ → List FVal) (G : ℕ) (tres : String) (i j : ℕ)
    (cand : List FVal) (c : ℕ) (ev : Event) (refl rain : List FVal)
    (h : processClosure station ts radar G tres i j cand c = .ok (some (ev, refl, rain))) :
    ev.rain_intens_min ≠ none ∧ ev.rain_intens_avg ≠ none ∧ ev.rain_intens_max ≠ none ∧
    fleB ev.rain_intens_min ev.rain_intens_avg = true ∧
    fleB ev.rain_intens_avg ev.rain_intens_max = true := by
  obtain ⟨_, _, hmin, havg, hmax, _, _, _, hne, hmean⟩ :=
    emitted_event_fields station ts radar G tres i j cand c ev refl rain h
  have hall := fmean_ne_none_all_some rain hmean
  have hchain := statsOf_chain rain hne hall
  rw [hmin, havg, hmax]
  exact ⟨fminList_ne_none rain hne hall, hmean, fmaxList_ne_none rain hne hall,
    hchain.1, hchain.2⟩

/-- When the reflectivity average of an emitted event is not NaN, the
reflectivity statistics satisfy the min-mean-max chain. -/
theorem emitted_reflect_props (station : String) (ts : ℕ → ℚ)
    (radar : String → ℚ → ℚ → List FVal) (G : ℕ) (tres : String) (i j : ℕ)
    (cand : List FVal) (c : ℕ) (ev : Event) (refl rain : List FVal)
    (h : processClosure station ts radar G tres i j cand c = .ok (some (ev, refl, rain)))
    (hna : ev.reflect_avg ≠ none) :
    fleB ev.reflect_min ev.reflect_avg = true ∧
    fleB ev.reflect_avg ev.reflect_max = true := by
  obtain ⟨_, _, _, _, _, hrmin, hravg, hrmax, _, _⟩ :=
    emitted_event_fields station ts radar G tres i j cand c ev refl rain h
  rw [hravg] at hna
  obtain ⟨hne, hc1, hc2, hc3⟩ := statsOf_components refl hna
  have hall := fmean_ne_none_all_some refl (by rw [← hc2]; exact hna)
  have hchain := statsOf_chain refl hne hall
  rw [hrmin, hravg, hrmax, hc1, hc2, hc3]
  exact hchain

/-! ### Merge recombination lemmas -/

theorem fleB_true_elim (x y : FVal) (h : fleB x y = true) :
    ∃ a b, x = some a ∧ y = some b ∧ a ≤ b := by
  cases x with
  | none => simp [fleB] at h
  | some a =>
    cases y with
    | none => simp [fleB] at h
    | some b => exact ⟨a, b, rfl, rfl, by simpa [fleB] using h⟩

/-- A successful pairwise merge has nonzero total duration and its fields
are the recombinations computed by `merge_two_events`. -/
theorem merge_two_events_ok (e1 e2 : Event) (m : Event)
    (hm : merge_two_events e1 e2 = .ok m) :
    e1.duration + e2.duration ≠ 0 ∧
    m = mkEvent (min e1.start_time e2.start_time) (max e1.end_time e2.end_time)
      (e1.stations ++ e2.stations)
      (fmin e1.reflect_min e2.reflect_min)
      (fdivZ (fadd (fmulZ e1.reflect_avg e1.duration) (fmulZ e2.reflect_avg e2.duration))
        (e1.duration + e2.duration))
      (fmax e1.reflect_max e2.reflect_max)
      (fmin e1.rain_intens_min e2.rain_intens_min)
      (fdivZ (fadd (fmulZ e1.rain_intens_avg e1.duration) (fmulZ e2.rain_intens_avg e2.duration))
        (e1.duration + e2.duration))
      (fmax e1.rain_intens_max e2.rain_intens_max) := by
  by_cases hz : e1.duration + e2.duration = 0
  · rw [merge_two_events, if_pos hz] at hm
    exact absurd hm (by simp)
  · rw [merge_two_events, if_neg hz] at hm
    simp only [Except.ok.injEq] at hm
    exact ⟨hz, hm.symm⟩

/-- The duration-weighted mean of two values lies between their min-side
lower bounds and max-side upper bounds, for nonnegative weights with
positive total. -/
theorem weighted_mean_chain (m1 a1 M1 m2 a2 M2 : ℚ) (d1 d2 : ℤ)
    (h1 : m1 ≤ a1) (h2 : a1 ≤ M1) (h3 : m2 ≤ a2) (h4 : a2 ≤ M2)
    (hd1 : 0 ≤ d1) (hd2 : 0 ≤ d2) (hdz : d1 + d2 ≠ 0) :
    min m1 m2 ≤ (a1 * (d1 : ℚ) + a2 * (d2 : ℚ)) / (((d1 + d2 : ℤ) : ℚ)) ∧
    (a1 * (d1 : ℚ) + a2 * (d2 : ℚ)) / (((d1 + d2 : ℤ) : ℚ)) ≤ max M1 M2 := by
  have hq1 : (0 : ℚ) ≤ (d1 : ℚ) := by exact_mod_cast hd1
  have hq2 : (0 : ℚ) ≤ (d2 : ℚ) := by exact_mod_cast hd2
  have hD : (0 : ℚ) < ((d1 + d2 : ℤ) : ℚ) := by
    have hpos : 0 < d1 + d2 := lt_of_le_of_ne (by omega) (Ne.symm hdz)
    exact_mod_cast hpos
  have hcast : ((d1 + d2 : ℤ) : ℚ) = (d1 : ℚ) + (d2 : ℚ) := by push_cast; ring
  constructor
  · rw [le_div_iff₀ hD, hcast]
    have b1 : min m1 m2 * (d1 : ℚ) ≤ a1 * (d1 : ℚ) :=
      mul_le_mul_of_nonneg_right (le_trans (min_le_left m1 m2) h1) hq1
    have b2 : min m1 m2 * (d2 : ℚ) ≤ a2 * (d2 : ℚ) :=
      mul_le_mul_of_nonneg_right (le_trans (min_le_right m1 m2) h3) hq2
    nlinarith
  · rw [div_le_iff₀ hD, hcast]
    have b1 : a1 * (d1 : ℚ) ≤ max M1 M2 * (d1 : ℚ) :=
      mul_le_mul_of_nonneg_right (le_trans h2 (le_max_left M1 M2)) hq1
    have b2 : a2 * (d2 : ℚ) ≤ max M1 M2 * (d2 : ℚ) :=
      mul_le_mul_of_nonneg_right (le_trans h4 (le_max_right M1 M2)) hq2
    nlinarith

/-- Pairwise merging preserves the min-avg-max chains on NaN-free events
with nonnegative durations. -/
theorem merge_two_events_chain (e1 e2 m : Event)
    (h1a : fleB e1.reflect_min e1.reflect_avg = true)
    (h1b : fleB e1.reflect_avg e1.reflect_max = true)
    (h1c : fleB e1.rain_intens_min e1.rain_intens_avg = true)
    (h1d : fleB e1.rain_intens_avg e1.rain_intens_max = true)
    (h2a : fleB e2.reflect_min e2.reflect_avg = true)
    (h2b : fleB e2.reflect_avg e2.reflect_max = true)
    (h2c : fleB e2.rain_intens_min e2.rain_intens_avg = true)
    (h2d : fleB e2.rain_intens_avg e2.rain_intens_max = true)
    (hd1 : 0 ≤ e1.duration) (hd2 : 0 ≤ e2.duration)
    (hm : merge_two_events e1 e2 = .ok m) :
    fleB m.reflect_min m.reflect_avg = true ∧
    fleB m.reflect_avg m.reflect_max = true ∧
    fleB m.rain_intens_min m.rain_intens_avg = true ∧
    fleB m.rain_intens_avg m.rain_intens_max = true := by
  obtain ⟨hdz, hmk⟩ := merge_two_events_ok e1 e2 m hm
  obtain ⟨rm1, ra1, hrm1, hra1, hr1⟩ := fleB_true_elim _ _ h1a
  obtain ⟨ra1x, rM1, hra1x, hrM1, hr1x⟩ := fleB_true_elim _ _ h1b
  obtain ⟨im1, ia1, him1, hia1, hi1⟩ := fleB_true_elim _ _ h1c
  obtain ⟨ia1x, iM1, hia1x, hiM1, hi1x⟩ := fleB_true_elim _ _ h1d
  obtain ⟨rm2, ra2, hrm2, hra2, hr2⟩ := fleB_true_elim _ _ h2a
  obtain ⟨ra2x, rM2, hra2x, hrM2, hr2x⟩ := fleB_true_elim _ _ h2b
  obtain ⟨im2, ia2, him2, hia2, hi2⟩ := fleB_true_elim _ _ h2c
  obtain ⟨ia2x, iM2, hia2x, hiM2, hi2x⟩ := fleB_true_elim _ _ h2d
  have e1r : ra1x = ra1 := by rw [hra1] at hra1x; exact (Option.some.inj hra1x).symm
  have e1i : ia1x = ia1 := by rw [hia1] at hia1x; exact (Option.some.inj hia1x).symm
  have e2r : ra2x = ra2 := by rw [hra2] at hra2x; exact (Option.some.inj hra2x).symm
  have e2i : ia2x = ia2 := by rw [hia2] at hia2x; exact (Option.some.inj hia2x).symm
  rw [e1r] at hr1x
  rw [e1i] at hi1x
  rw [e2r] at hr2x
  rw [e2i] at hi2x
  have hrw := weighted_mean_chain rm1 ra1 rM1 rm2 ra2 rM2 e1.duration e2.duration
    hr1 hr1x hr2 hr2x hd1 hd2 hdz
  have hiw := weighted_mean_chain im1 ia1 iM1 im2 ia2 iM2 e1.duration e2.duration
    hi1 hi1x hi2 hi2x hd1 hd2 hdz
  subst hmk
  simp only [mkEvent]
  rw [hrm1, hrm2, hra1, hra2, hrM1, hrM2, him1, him2, hia1, hia2, hiM1, hiM2]
  simp only [fmin_some_some, fmax_some_some, fmulZ, fadd, fdivZ]
  refine ⟨?_, ?_, ?_, ?_⟩ <;> simp only [fleB, decide_eq_true_eq]
  · exact hrw.1
  · exact hrw.2
  · exact hiw.1
  · exact hiw.2

/-! ### Sorting and the merge loop -/

/-- Orders events by start time (the sort key of the merger). -/
def startLE (a b : Event) : Prop := a.start_time ≤ b.start_time

/-- Two adjacent result events neither overlap nor touch. -/
def gapLT (a b : Event) : Prop := a.end_time < b.start_time

theorem mem_insertByStart (e : Event) :
    ∀ (l : List Event) (x : Event), x ∈ insertByStart e l ↔ x = e ∨ x ∈ l := by
  intro l
  induction l with
  | nil => intro x; simp [insertByStart]
  | cons h t ih =>
    intro x
    by_cases hc : h.start_time ≤ e.start_time
    · simp only [insertByStart, if_pos hc, List.mem_cons, ih x]
      tauto
    · simp only [insertByStart, if_neg hc, List.mem_cons]

theorem length_insertByStart (e : Event) :
    ∀ l : List Event, (insertByStart e l).length = l.length + 1 := by
  intro l
  induction l with
  | nil => rfl
  | cons h t ih =>
    by_cases hc : h.start_time ≤ e.start_time
    · simp [insertByStart, if_pos hc, ih]
    · simp [insertByStart, if_neg hc]

theorem pairwise_insertByStart (e : Event) :
    ∀ l : List Event, List.Pairwise startLE l → List.Pairwise startLE (insertByStart e l) := by
  intro l
  induction l with
  | nil => intro _; simp [insertByStart, List.pairwise_singleton]
  | cons h t ih =>
    intro hp
    rw [List.pairwise_cons] at hp
    by_cases hc : h.start_time ≤ e.start_time
    · rw [insertByStart, if_pos hc, List.pairwise_cons]
      refine ⟨?_, ih hp.2⟩
      intro x hx
      rcases (mem_insertByStart e t x).mp hx with rfl | hxt
      · exact hc
      · exact hp.1 x hxt
    · rw [insertByStart, if_neg hc, List.pairwise_cons]
      refine ⟨?_, List.pairwise_cons.mpr hp⟩
      intro x hx
      rcases List.mem_cons.mp hx with rfl | hxt
      · exact le_of_lt (lt_of_not_le hc)
      · exact le_trans (le_of_lt (lt_of_not_le hc)) (hp.1 x hxt)

theorem pairwise_sortByStart (l : List Event) : List.Pairwise startLE (sortByStart l) := by
  induction l with
  | nil => exact List.Pairwise.nil
  | cons h t ih => exact pairwise_insertByStart h (sortByStart t) ih

theorem length_sortByStart (l : List Event) : (sortByStart l).length = l.length := by
  induction l with
  | nil => rfl
  | cons h t ih =>
    show (insertByStart h (sortByStart t)).length = t.length + 1
    rw [length_insertByStart, ih]

theorem merge_start_time (e1 e2 m : Event) (hm : merge_two_events e1 e2 = .ok m) :
    m.start_time = min e1.start_time e2.start_time := by
  obtain ⟨_, hmk⟩ := merge_two_events_ok e1 e2 m hm
  subst hmk
  rfl

/-- The invariant of the merger accumulation loop: on a start-sorted input
whose starts all dominate the current accumulator start, a successful run
yields a non-empty, start-sorted result whose adjacent entries are
separated by strict gaps, whose head keeps the accumulator start, and all
of whose starts dominate the accumulator start. -/
theorem mergeLoop_props :
    ∀ (rest : List Event) (last : Event) (res : List Event),
    List.Pairwise startLE rest →
    (∀ e ∈ rest, last.start_time ≤ e.start_time) →
    mergeLoop last rest = .ok res →
    (∃ hd tl, res = hd :: tl ∧ hd.start_time = last.start_time) ∧
    List.Pairwise startLE res ∧ List.Chain' gapLT res ∧
    (∀ x ∈ res, last.start_time ≤ x.start_time) := by
  intro rest
  induction rest with
  | nil =>
    intro last res _ _ h
    rw [mergeLoop] at h
    simp only [Except.ok.injEq] at h
    subst h
    exact ⟨⟨last, [], rfl, rfl⟩, List.pairwise_singleton _ _,
      List.chain'_singleton _, by simp [startLE]⟩
  | cons e es ih =>
    intro last res hp hdom h
    rw [List.pairwise_cons] at hp
    rw [mergeLoop] at h
    by_cases hov : e.start_time ≤ last.end_time
    · rw [if_pos hov] at h
      cases hme : merge_two_events last e with
      | error err => rw [hme] at h; exact absurd h (by simp)
      | ok m =>
        rw [hme] at h
        simp only at h
        have hms : m.start_time = last.start_time := by
          rw [merge_start_time last e m hme]
          exact min_eq_left (hdom e (List.mem_cons_self e es))
        have hres := ih m res hp.2
          (fun x hx => hms ▸ le_trans (hdom e (List.mem_cons_self e es)) (hp.1 x hx))
          h
        obtain ⟨⟨hd, tl, hres1, hres2⟩, hres3, hres4, hres5⟩ := hres
        refine ⟨⟨hd, tl, hres1, by rw [hres2, hms]⟩, hres3, hres4, ?_⟩
        intro x hx
        exact hms ▸ hres5 x hx
    · rw [if_neg hov] at h
      cases hrec : mergeLoop e es with
      | error err => rw [hrec] at h; exact absurd h (by simp)
      | ok r =>
        rw [hrec] at h
        simp only [Except.ok.injEq] at h
        subst h
        have hres := ih e r hp.2 (fun x hx => hp.1 x hx) hrec
        obtain ⟨⟨hd, tl, hr1, hr2⟩, hr3, hr4, hr5⟩ := hres
        have hlaste : last.start_time ≤ e.start_time := hdom e (List.mem_cons_self e es)
        refine ⟨⟨last, r, rfl, rfl⟩, ?_, ?_, ?_⟩
        · rw [List.pairwise_cons]
          exact ⟨fun x hx => le_trans hlaste (hr5 x hx), hr3⟩
        · subst hr1
          rw [List.chain'_cons]
          refine ⟨?_, hr4⟩
          rw [gapLT, hr2]
          exact lt_of_not_le hov
        · intro x hx
          rcases List.mem_cons.mp hx with rfl | hxr
          · exact le_refl x.start_time
          · exact le_trans hlaste (hr5 x hxr)

/-! ### Claim theorems -/

/-- C1: the specification states that after closing and recording an event
at inner index j the scan resumes exactly at j + 1, examining the value
there as a potential new candidate start.  The source instead executes
`i = j + 1`, breaks, and then still runs the unconditional `i += 1` of the
while body, so scanning resumes at j + 2 and index j + 1 is never
examined.  On the series 0.2, 0, 0, 0, 0.5, 0, 0, 0 with threshold 0.1
and gap tolerance 2, the first candidate closes at j = 3; index
j + 1 = 4 holds the above-threshold value 0.5 whose own candidate closes
within the series (running the segmenter on the suffix from index 4
emits one event), yet the full scan returns a single event: the event
starting at index 4 is lost. -/
theorem c1_closure_skips_following_index :
    (eventsOf (select_events_single_station "A" valsSkip tsHour radarConst11 2
      (1/10) "6min")).length = 1 ∧
    valsSkip[4]? = some (some (1/2)) ∧ fge (some (1/2)) (1/10) = true ∧
    (eventsOf (select_events_single_station "A" (valsSkip.drop 4) tsHour radarConst11 2
      (1/10) "6min")).length = 1 := by
  refine ⟨by with_unfolding_all rfl, rfl, by with_unfolding_all decide,
    by with_unfolding_all rfl⟩

/-- C2 counterexample: the claim promises a merged result for every list
of at least one Event, but `merge_overlapping_events` renders the first
100 events before merging and raises IndexError on this singleton list. -/
theorem c2_counterexample_singleton :
    ([evGrid 0] : List Event).length = 1 ∧
    merge_overlapping_events [evGrid 0] = .error .indexError := by
  exact ⟨rfl, by with_unfolding_all rfl⟩

/-- C2 (amended): whenever `merge_overlapping_events` returns a list, that
list is sorted by start time ascending, adjacent result events are
separated by strict gaps (every overlapping or touching event was merged
into the preceding entry, all others appended), and the input necessarily
held at least 100 events. -/
theorem c2_merged_sorted_and_gapped (events res : List Event)
    (h : merge_overlapping_events events = .ok res) :
    List.Pairwise startLE res ∧ List.Chain' gapLT res ∧ 100 ≤ events.length := by
  rw [merge_overlapping_events] at h
  by_cases hlen : (sortByStart events).length < 100
  · rw [if_pos hlen] at h
    exact absurd h (by simp)
  · rw [if_neg hlen] at h
    cases hs : sortByStart events with
    | nil => rw [hs] at h; exact absurd h (by simp)
    | cons e0 rest =>
      rw [hs] at h
      have hp : List.Pairwise startLE (e0 :: rest) := hs ▸ pairwise_sortByStart events
      rw [List.pairwise_cons] at hp
      have hres := mergeLoop_props rest e0 res hp.2 hp.1 h
      refine ⟨hres.2.1, hres.2.2.1, ?_⟩
      have h1 : (sortByStart events).length = rest.length + 1 := by rw [hs]; rfl
      have h2 := length_sortByStart events
      have h3 : (e0 :: rest).length = rest.length + 1 := rfl
      omega

/-- C2 witness: one hundred non-overlapping events merge successfully and
the amended properties hold on the result. -/
theorem c2_merged_sorted_witness :
    List.Pairwise startLE evts100 ∧ List.Chain' gapLT evts100 ∧ 100 ≤ evts100.length :=
  c2_merged_sorted_and_gapped evts100 evts100 (by with_unfolding_all rfl)

/-- C4 counterexample: two events of equal duration 0 (half-hour spans)
have no merged event at all: the duration-weighted average divides by
duration1 + duration2 = 0 and `merge_two_events` raises
ZeroDivisionError, so the claimed arithmetic-mean identity has no
instance here. -/
theorem c4_counterexample_zero_duration :
    evHalfHourA.duration = evHalfHourB.duration ∧
    merge_two_events evHalfHourA evHalfHourB = .error .zeroDivisionError := by
  exact ⟨by with_unfolding_all decide, by with_unfolding_all rfl⟩

/-- C4 (amended): for two events of equal nonzero duration the pairwise
merge succeeds and both merged averages equal exactly the arithmetic mean
of the two constituent averages. -/
theorem c4_equal_duration_arith_mean (e1 e2 : Event)
    (hdeq : e1.duration = e2.duration) (hdnz : e1.duration ≠ 0) :
    ∃ m, merge_two_events e1 e2 = .ok m ∧
      m.reflect_avg = fdivZ (fadd e1.reflect_avg e2.reflect_avg) 2 ∧
      m.rain_intens_avg = fdivZ (fadd e1.rain_intens_avg e2.rain_intens_avg) 2 := by
  have key : ∀ (x y : FVal) (d : ℤ), d ≠ 0 →
      fdivZ (fadd (fmulZ x d) (fmulZ y d)) (d + d) = fdivZ (fadd x y) 2 := by
    intro x y d hd
    cases x with
    | none => cases y <;> simp [fmulZ, fadd, fdivZ]
    | some p =>
      cases y with
      | none => simp [fmulZ, fadd, fdivZ]
      | some q =>
        simp only [fmulZ, fadd, fdivZ, Option.some.injEq]
        have hdq : (d : ℚ) ≠ 0 := Int.cast_ne_zero.mpr hd
        have hcast : ((d + d : ℤ) : ℚ) = (d : ℚ) + (d : ℚ) := by push_cast; ring
        have hc2 : ((2 : ℤ) : ℚ) = 2 := by norm_num
        rw [hcast, hc2]
        rw [div_eq_div_iff (by intro hc; apply hdq; linarith) (by norm_num)]
        ring
  have hsum : e1.duration + e2.duration ≠ 0 := by omega
  rw [merge_two_events, if_neg hsum]
  refine ⟨_, rfl, ?_, ?_⟩
  · show fdivZ (fadd (fmulZ e1.reflect_avg e1.duration) (fmulZ e2.reflect_avg e2.duration))
      (e1.duration + e2.duration) = fdivZ (fadd e1.reflect_avg e2.reflect_avg) 2
    rw [← hdeq]
    exact key e1.reflect_avg e2.reflect_avg e1.duration hdnz
  · show fdivZ (fadd (fmulZ e1.rain_intens_avg e1.duration) (fmulZ e2.rain_intens_avg e2.duration))
      (e1.duration + e2.duration) = fdivZ (fadd e1.rain_intens_avg e2.rain_intens_avg) 2
    rw [← hdeq]
    exact key e1.rain_intens_avg e2.rain_intens_avg e1.duration hdnz

/-- C4 witness: merging a one-hour event with itself yields the
arithmetic mean of the averages. -/
theorem c4_equal_duration_witness :
    ∃ m, merge_two_events evHour evHour = .ok m ∧
      m.reflect_avg = fdivZ (fadd evHour.reflect_avg evHour.reflect_avg) 2 ∧
      m.rain_intens_avg = fdivZ (fadd evHour.rain_intens_avg evHour.rain_intens_avg) 2 :=
  c4_equal_duration_arith_mean evHour evHour rfl (by with_unfolding_all decide)

/-- C10: the merger renders the first 100 events before merging, so every
input with fewer than 100 events fails with the out-of-range index error,
and a merged result is only ever returned for at least 100 events. -/
theorem c10_merger_requires_100 :
    (∀ events : List Event, events.length < 100 →
      merge_overlapping_events events = .error .indexError) ∧
    (∀ events res : List Event, merge_overlapping_events events = .ok res →
      100 ≤ events.length) := by
  constructor
  · intro events hlen
    rw [merge_overlapping_events, if_pos (by rw [length_sortByStart]; exact hlen)]
  · intro events res h
    rw [merge_overlapping_events] at h
    by_cases hlen : (sortByStart events).length < 100
    · rw [if_pos hlen] at h
      exact absurd h (by simp)
    · rw [length_sortByStart] at hlen
      omega

/-- C10 witness: the empty list fails with IndexError, and a
100-event list is accepted. -/
theorem c10_merger_requires_100_witness :
    merge_overlapping_events [] = .error .indexError ∧ 100 ≤ evts100.length :=
  ⟨c10_merger_requires_100.1 [] (by decide),
   c10_merger_requires_100.2 evts100 evts100 (by with_unfolding_all rfl)⟩

/-- In 60-minute (or 1H) mode every emitted segment passed the one-to-one
length check. -/
theorem processClosure_60min_lengths (station : String) (ts : ℕ → ℚ)
    (radar : String → ℚ → ℚ → List FVal) (G : ℕ) (tres : String) (i j : ℕ)
    (cand : List FVal) (c : ℕ) (ev : Event) (refl rain : List FVal)
    (ht : tres = "60min" ∨ tres = "1H")
    (h : processClosure station ts radar G tres i j cand c = .ok (some (ev, refl, rain))) :
    refl.length = rain.length := by
  have ht6 : ¬tres = "6min" := by rcases ht with rfl | rfl <;> simp
  simp only [processClosure] at h
  by_cases hnan : (statsOf (cand.take (cand.length - c))).2.1 = none
  · rw [if_pos hnan] at h
    exact absurd h (by simp)
  · rw [if_neg hnan, if_neg ht6, if_pos ht] at h
    by_cases hlen : ((radar station (ts i) (ts (j - G))).dropLast).length =
        (cand.take (cand.length - c)).length
    · rw [if_pos hlen] at h
      simp only [Except.ok.injEq, Option.some.injEq, Prod.mk.injEq] at h
      obtain ⟨_, hrefl, hrain⟩ := h
      subst hrefl; subst hrain
      exact hlen
    · rw [if_neg hlen] at h
      exact absurd h (by simp)

/-- In 60-minute (or 1H) mode every successful scan returns flat sample
lists of equal length: each emitted segment passed the per-event
consistency check and nothing else is appended. -/
theorem scanFrom_lengths_60min (station : String) (vals : List FVal) (ts : ℕ → ℚ)
    (radar : String → ℚ → ℚ → List FVal) (G : ℕ) (thr : ℚ) (tres : String)
    (ht : tres = "60min" ∨ tres = "1H") :
    ∀ (fuel i : ℕ) (evs : List Event) (Z R : List FVal),
    scanFrom station vals ts radar G thr tres fuel i = .ok (evs, Z, R) →
    Z.length = R.length := by
  intro fuel
  induction fuel with
  | zero =>
    intro i evs Z R h
    rw [scanFrom] at h
    simp only [Except.ok.injEq, Prod.mk.injEq] at h
    obtain ⟨_, h2, h3⟩ := h
    subst h2; subst h3
    rfl
  | succ fuel ih =>
    intro i evs Z R h
    rw [scanFrom] at h
    cases hvi : vals[i]? with
    | none =>
      rw [hvi] at h
      simp only [Except.ok.injEq, Prod.mk.injEq] at h
      obtain ⟨_, h2, h3⟩ := h
      subst h2; subst h3
      rfl
    | some v =>
      rw [hvi] at h
      simp only at h
      by_cases hge : fge v thr
      · rw [if_pos hge] at h
        cases hfc : findClosure vals thr G (vals.length + 1) i [] 0 with
        | none =>
          rw [hfc] at h
          exact ih (i + 1) evs Z R h
        | some jcc =>
          obtain ⟨j, cand, c⟩ := jcc
          rw [hfc] at h
          simp only at h
          cases hpc : processClosure station ts radar G tres i j cand c with
          | error err => rw [hpc] at h; exact absurd h (by simp)
          | ok emitted =>
            rw [hpc] at h
            cases emitted with
            | none =>
              simp only at h
              exact ih (j + 2) evs Z R h
            | some res =>
              obtain ⟨ev, refl0, rain0⟩ := res
              simp only at h
              cases hrec : scanFrom station vals ts radar G thr tres fuel (j + 2) with
              | error err => rw [hrec] at h; exact absurd h (by simp)
              | ok rest =>
                obtain ⟨evs1, Zs, Rs⟩ := rest
                rw [hrec] at h
                simp only [Except.ok.injEq, Prod.mk.injEq] at h
                obtain ⟨_, h2, h3⟩ := h
                subst h2; subst h3
                have hseg := processClosure_60min_lengths station ts radar G tres
                  i j cand c ev refl0 rain0 ht hpc
                have hrest := ih (j + 2) evs1 Zs Rs hrec
                simp only [List.length_append]
                omega
      · rw [if_neg hge] at h
        exact ih (i + 1) evs Z R h

/-- C3 counterexample: the claim demands a ConsistencyError for every
closed candidate whose reflectivity length mismatches the 10-to-1 ratio,
but the source performs the check only inside the non-NaN branch.  On the
series 0.2, NaN, 0.3, 0, 0, 0 the inner loop closes a candidate at
j = 5 whose rain segment keeps the NaN, the mean is NaN, the candidate is
silently discarded, and the run returns successfully even though the
closed candidate's reflectivity segment (empty here) mismatches ten times
its rain-sample count. -/
theorem c3_counterexample_nan_discard :
    findClosure valsNanGap (1/10) 2 (valsNanGap.length + 1) 0 [] 0 =
      some (5, valsNanGap, 3) ∧
    ((radarEmptyLookup "A" (tsHour 0) (tsHour 3)).dropLast).length ≠
      10 * ((valsNanGap.take (valsNanGap.length - 3)).length) ∧
    select_events_single_station "A" valsNanGap tsHour radarEmptyLookup 2 (1/10) "6min" =
      .ok ([], [], []) := by
  refine ⟨by with_unfolding_all rfl, by decide, by with_unfolding_all rfl⟩

/-- C3 (amended): whenever the segmenter closes a candidate whose rain
statistics are non-NaN (every candidate that gets recorded) and whose
reflectivity-segment length differs from the configured ratio times the
rain-sample count — ten times in 6-minute mode, one times in 60-minute
(or 1H) mode — closure processing fails with the ConsistencyError;
consequently every successful 6-minute run returns flat sample lists with
exactly ten reflectivity samples per rain sample, and every successful
60-minute (or 1H) run returns lists of equal length, before any output
is observable. -/
theorem c3_consistency_enforced :
    (∀ (station : String) (ts : ℕ → ℚ) (radar : String → ℚ → ℚ → List FVal)
       (G i j : ℕ) (cand : List FVal) (c : ℕ),
       (statsOf (cand.take (cand.length - c))).2.1 ≠ none →
       ((radar station (ts i) (ts (j - G))).dropLast).length ≠
         10 * (cand.take (cand.length - c)).length →
       processClosure station ts radar G "6min" i j cand c = .error .consistencyError) ∧
    (∀ (station : String) (ts : ℕ → ℚ) (radar : String → ℚ → ℚ → List FVal)
       (G i j : ℕ) (cand : List FVal) (c : ℕ) (tres : String),
       tres = "60min" ∨ tres = "1H" →
       (statsOf (cand.take (cand.length - c))).2.1 ≠ none →
       ((radar station (ts i) (ts (j - G))).dropLast).length ≠
         (cand.take (cand.length - c)).length →
       processClosure station ts radar G tres i j cand c = .error .consistencyError) ∧
    (∀ (station : String) (vals : List FVal) (ts : ℕ → ℚ)
       (radar : String → ℚ → ℚ → List FVal) (G : ℕ) (thr : ℚ)
       (evs : List Event) (Z R : List FVal),
       select_events_single_station station vals ts radar G thr "6min" = .ok (evs, Z, R) →
       Z.length = 10 * R.length) ∧
    (∀ (station : String) (vals : List FVal) (ts : ℕ → ℚ)
       (radar : String → ℚ → ℚ → List FVal) (G : ℕ) (thr : ℚ)
       (tres : String) (evs : List Event) (Z R : List FVal),
       tres = "60min" ∨ tres = "1H" →
       select_events_single_station station vals ts radar G thr tres = .ok (evs, Z, R) →
       Z.length = R.length) := by
  refine ⟨?_, ?_, ?_, ?_⟩
  · intro station ts radar G i j cand c hnan hlen
    simp only [processClosure, if_neg hnan, if_true, if_neg hlen]
  · intro station ts radar G i j cand c tres ht hnan hlen
    have ht6 : ¬tres = "6min" := by rcases ht with rfl | rfl <;> simp
    simp only [processClosure]
    rw [if_neg hnan, if_neg ht6, if_pos ht, if_neg hlen]
  · intro station vals ts radar G thr evs Z R h
    simp only [select_events_single_station] at h
    exact scanFrom_lengths_6min station vals ts radar G thr (vals.length + 1) 0 evs Z R h
  · intro station vals ts radar G thr tres evs Z R ht h
    simp only [select_events_single_station] at h
    exact scanFrom_lengths_60min station vals ts radar G thr tres ht
      (vals.length + 1) 0 evs Z R h

/-- C3 witness: concrete mismatching closures raise the error in both
temporal-resolution modes, and concrete successful runs satisfy the
10-to-1 relation in 6-minute mode and the 1-to-1 relation in 60-minute
mode. -/
theorem c3_consistency_enforced_witness :
    processClosure "A" tsHour radarEmptyLookup 2 "6min" 0 5 valsShort 3 =
      .error .consistencyError ∧
    processClosure "A" tsHour radarEmptyLookup 2 "60min" 0 5 valsShort 3 =
      .error .consistencyError ∧
    (List.replicate 10 (some 1) : List FVal).length =
      10 * ([some 1] : List FVal).length ∧
    ([some 1] : List FVal).length = ([some 1] : List FVal).length :=
  ⟨c3_consistency_enforced.1 "A" tsHour radarEmptyLookup 2 0 5 valsShort 3
      (by with_unfolding_all decide) (by with_unfolding_all decide),
   c3_consistency_enforced.2.1 "A" tsHour radarEmptyLookup 2 0 5 valsShort 3 "60min"
      (Or.inl rfl) (by with_unfolding_all decide) (by with_unfolding_all decide),
   c3_consistency_enforced.2.2.1 "A" valsOne tsHour radarConst11 2 (1/10) [evOneOut]
      (List.replicate 10 (some 1)) [some 1] (by with_unfolding_all rfl),
   c3_consistency_enforced.2.2.2 "A" valsOne tsHour radarConst2 2 (1/10) "60min"
      [evOneOut] [some 1] [some 1] (Or.inl rfl) (by with_unfolding_all rfl)⟩

/-- C5 counterexample: the claim says no persisted Event has NaN in any
reflectivity or rain-intensity field, but only the rain average is
NaN-checked.  With a radar lookup yielding NaN sub-samples (lengths
matching, so the consistency check passes) the run succeeds and returns
an event whose reflectivity fields are all NaN. -/
theorem c5_counterexample_nan_reflect :
    (select_events_single_station "A" valsShort tsHour radarNaN11 2 (1/10) "6min").isOk
      = true ∧
    (eventsOf (select_events_single_station "A" valsShort tsHour radarNaN11 2
      (1/10) "6min")).map Event.reflect_avg = [none] := by
  exact ⟨by with_unfolding_all rfl, by with_unfolding_all rfl⟩

/-- C5 (amended): no persisted Event has a NaN value in any rain-intensity
field — a candidate whose rain average is NaN is discarded before Event
construction, and a non-NaN rain mean forces all rain statistics non-NaN.
(Reflectivity fields of a persisted Event can still be NaN.) -/
theorem c5_rain_fields_never_nan (station : String) (vals : List FVal) (ts : ℕ → ℚ)
    (radar : String → ℚ → ℚ → List FVal) (G : ℕ) (thr : ℚ) (tres : String)
    (evs : List Event) (Z R : List FVal)
    (h : select_events_single_station station vals ts radar G thr tres = .ok (evs, Z, R)) :
    ∀ e ∈ evs, e.rain_intens_min ≠ none ∧ e.rain_intens_avg ≠ none ∧
      e.rain_intens_max ≠ none := by
  intro e he
  simp only [select_events_single_station] at h
  obtain ⟨i1, j, v, cand, c, refl0, rain0, _, _, _, hpc⟩ :=
    scanFrom_mem station vals ts radar G thr tres (vals.length + 1) 0 evs Z R h e he
  obtain ⟨h1, h2, h3, _, _⟩ :=
    emitted_rain_props station ts radar G tres i1 j cand c e refl0 rain0 hpc
  exact ⟨h1, h2, h3⟩

/-- C5 witness: the event emitted on a concrete series has non-NaN rain
statistics. -/
theorem c5_rain_fields_witness :
    evOneOut.rain_intens_min ≠ none ∧ evOneOut.rain_intens_avg ≠ none ∧
      evOneOut.rain_intens_max ≠ none :=
  c5_rain_fields_never_nan "A" valsOne tsHour radarConst11 2 (1/10) "6min"
    [evOneOut] (List.replicate 10 (some 1)) [some 1] (by with_unfolding_all rfl)
    evOneOut (List.mem_singleton.mpr rfl)

/-- C6: when the segmenter closes a candidate that started at index i with
a value at or above threshold, the gap-detection index j satisfies
i < j - G — the trailing G+1 below-threshold values cannot reach back to
the above-threshold start — so with strictly increasing timestamps every
emitted event has end_time = timestamp(j - G) strictly after
start_time = timestamp(i). -/
theorem c6_end_strictly_after_start :
    (∀ (station : String) (vals : List FVal) (ts : ℕ → ℚ)
       (radar : String → ℚ → ℚ → List FVal) (G : ℕ) (thr : ℚ) (tres : String)
       (evs : List Event) (Z R : List FVal), StrictMono ts →
       select_events_single_station station vals ts radar G thr tres = .ok (evs, Z, R) →
       ∀ e ∈ evs, e.start_time < e.end_time) ∧
    (∀ (vals : List FVal) (thr : ℚ) (G fuel i : ℕ) (v : FVal) (jc : ℕ)
       (candc : List FVal) (cc : ℕ), vals[i]? = some v → fge v thr = true →
       findClosure vals thr G fuel i [] 0 = some (jc, candc, cc) →
       i < jc - G) := by
  constructor
  · intro station vals ts radar G thr tres evs Z R hmono h e he
    simp only [select_events_single_station] at h
    obtain ⟨i1, j, v, cand, c, refl0, rain0, hvi, hge, hfc, hpc⟩ :=
      scanFrom_mem station vals ts radar G thr tres (vals.length + 1) 0 evs Z R h e he
    obtain ⟨hst, hen, _⟩ :=
      emitted_event_fields station ts radar G tres i1 j cand c e refl0 rain0 hpc
    have hij := findClosure_start vals thr G (vals.length + 1) i1 v j cand c hvi hge hfc
    rw [hst, hen]
    exact hmono hij.1
  · intro vals thr G fuel i v jc candc cc hv hge hfc
    exact (findClosure_start vals thr G fuel i v jc candc cc hv hge hfc).1

/-- C6 witness: on a concrete series with hourly timestamps the emitted
event ends strictly after it starts, and the concrete closure index
satisfies the strict bound. -/
theorem c6_end_strictly_after_start_witness :
    evOneOut.start_time < evOneOut.end_time ∧ (0 : ℕ) < 3 - 2 := by
  have hmono : StrictMono tsHour := fun a b hab =>
    mul_lt_mul_of_pos_left (Nat.cast_lt.mpr hab) (by norm_num)
  constructor
  · exact c6_end_strictly_after_start.1 "A" valsOne tsHour radarConst11 2 (1/10) "6min"
      [evOneOut] (List.replicate 10 (some 1)) [some 1] hmono (by with_unfolding_all rfl)
      evOneOut (List.mem_singleton.mpr rfl)
  · exact c6_end_strictly_after_start.2 valsOne (1/10) 2 (valsOne.length + 1) 0 (some 1)
      3 valsOne 3 rfl (by with_unfolding_all decide) (by with_unfolding_all rfl)

/-- C9 counterexample: the claim asserts the min-avg-max chains for every
Event the segmenter constructs, but an event persisted with NaN
reflectivity statistics (NaN radar sub-samples of matching count) fails
reflect_min ≤ reflect_avg, since NaN compares False under every float
comparison. -/
theorem c9_counterexample_nan_chain :
    (select_events_single_station "A" valsShort2 tsHour radarNaN11 2 (1/10) "6min").isOk
      = true ∧
    (eventsOf (select_events_single_station "A" valsShort2 tsHour radarNaN11 2
      (1/10) "6min")).map (fun e => fleB e.reflect_min e.reflect_avg) = [false] := by
  exact ⟨by with_unfolding_all rfl, by with_unfolding_all rfl⟩

/-- C9 (amended): every event the segmenter emits satisfies
rain_intens_min ≤ rain_intens_avg ≤ rain_intens_max, and satisfies
reflect_min ≤ reflect_avg ≤ reflect_max whenever its reflectivity average
is not NaN; and the pairwise merge preserves both chains for events with
non-NaN statistics and nonnegative durations. -/
theorem c9_stat_chains :
    (∀ (station : String) (vals : List FVal) (ts : ℕ → ℚ)
       (radar : String → ℚ → ℚ → List FVal) (G : ℕ) (thr : ℚ) (tres : String)
       (evs : List Event) (Z R : List FVal),
       select_events_single_station station vals ts radar G thr tres = .ok (evs, Z, R) →
       ∀ e ∈ evs,
         fleB e.rain_intens_min e.rain_intens_avg = true ∧
         fleB e.rain_intens_avg e.rain_intens_max = true ∧
         (e.reflect_avg ≠ none →
           fleB e.reflect_min e.reflect_avg = true ∧
           fleB e.reflect_avg e.reflect_max = true)) ∧
    (∀ e1 e2 m : Event,
       fleB e1.reflect_min e1.reflect_avg = true →
       fleB e1.reflect_avg e1.reflect_max = true →
       fleB e1.rain_intens_min e1.rain_intens_avg = true →
       fleB e1.rain_intens_avg e1.rain_intens_max = true →
       fleB e2.reflect_min e2.reflect_avg = true →
       fleB e2.reflect_avg e2.reflect_max = true →
       fleB e2.rain_intens_min e2.rain_intens_avg = true →
       fleB e2.rain_intens_avg e2.rain_intens_max = true →
       0 ≤ e1.duration → 0 ≤ e2.duration →
       merge_two_events e1 e2 = .ok m →
       fleB m.reflect_min m.reflect_avg = true ∧
       fleB m.reflect_avg m.reflect_max = true ∧
       fleB m.rain_intens_min m.rain_intens_avg = true ∧
       fleB m.rain_intens_avg m.rain_intens_max = true) := by
  constructor
  · intro station vals ts radar G thr tres evs Z R h e he
    simp only [select_events_single_station] at h
    obtain ⟨i1, j, v, cand, c, refl0, rain0, _, _, _, hpc⟩ :=
      scanFrom_mem station vals ts radar G thr tres (vals.length + 1) 0 evs Z R h e he
    obtain ⟨_, _, _, hc1, hc2⟩ :=
      emitted_rain_props station ts radar G tres i1 j cand c e refl0 rain0 hpc
    exact ⟨hc1, hc2, fun hna =>
      emitted_reflect_props station ts radar G tres i1 j cand c e refl0 rain0 hpc hna⟩
  · intro e1 e2 m h1a h1b h1c h1d h2a h2b h2c h2d hd1 hd2 hm
    exact merge_two_events_chain e1 e2 m h1a h1b h1c h1d h2a h2b h2c h2d hd1 hd2 hm

/-- C9 witness: the chains hold on a concretely emitted event and on a
concrete pairwise merge. -/
theorem c9_stat_chains_witness :
    (fleB evOneOut.rain_intens_min evOneOut.rain_intens_avg = true ∧
     fleB evOneOut.rain_intens_avg evOneOut.rain_intens_max = true) ∧
    (fleB evHourMerged.reflect_min evHourMerged.reflect_avg = true ∧
     fleB evHourMerged.reflect_avg evHourMerged.reflect_max = true ∧
     fleB evHourMerged.rain_intens_min evHourMerged.rain_intens_avg = true ∧
     fleB evHourMerged.rain_intens_avg evHourMerged.rain_intens_max = true) := by
  constructor
  · have hall := c9_stat_chains.1 "A" valsOne tsHour radarConst11 2 (1/10) "6min"
      [evOneOut] (List.replicate 10 (some 1)) [some 1] (by with_unfolding_all rfl)
      evOneOut (List.mem_singleton.mpr rfl)
    exact ⟨hall.1, hall.2.1⟩
  · exact c9_stat_chains.2 evHour evHour evHourMerged
      (by with_unfolding_all decide) (by with_unfolding_all decide)
      (by with_unfolding_all decide) (by with_unfolding_all decide)
      (by with_unfolding_all decide) (by with_unfolding_all decide)
      (by with_unfolding_all decide) (by with_unfolding_all decide)
      (by with_unfolding_all decide) (by with_unfolding_all decide)
      (by with_unfolding_all rfl)

/-- Every pair surviving the four cleaning filters of the assembler has a
reflectivity row free of zeros and NaNs and a nonzero, non-NaN rain
value. -/
theorem filtered_pairs_props (pairs0 : List (List FVal × FVal)) :
    ∀ p ∈ (((pairs0.filter (fun p => p.1.all (fun z => decide (z ≠ some 0)))).filter
        (fun p => p.1.all (fun z => decide (z ≠ none)))).filter
        (fun p => decide (p.2 ≠ some 0))).filter (fun p => decide (p.2 ≠ none)),
      (∀ z ∈ p.1, z ≠ some 0 ∧ z ≠ none) ∧ p.2 ≠ some 0 ∧ p.2 ≠ none := by
  intro p hp
  have hp4 := List.of_mem_filter hp
  have hp3m := (List.mem_filter.mp hp).1
  have hp3 := List.of_mem_filter hp3m
  have hp2m := (List.mem_filter.mp hp3m).1
  have hp2 := List.of_mem_filter hp2m
  have hp1m := (List.mem_filter.mp hp2m).1
  have hp1 := List.of_mem_filter hp1m
  refine ⟨?_, of_decide_eq_true hp3, of_decide_eq_true hp4⟩
  intro z hz
  constructor
  · exact of_decide_eq_true (List.all_eq_true.mp hp1 z hz)
  · exact of_decide_eq_true (List.all_eq_true.mp hp2 z hz)

/-- C7: whenever `select_all_events` returns normally, the cleaned arrays
have equal length, no reflectivity row contains a zero or NaN entry, and
no rain value is zero or NaN. -/
theorem c7_assembler_invariants (stationsData : List (String × List FVal)) (ts : ℕ → ℚ)
    (radar : String → ℚ → ℚ → List FVal) (G : ℕ) (thr : ℚ)
    (evs : List Event) (Z : List (List FVal)) (R : List FVal)
    (h : select_all_events stationsData ts radar G thr = .ok (evs, Z, R)) :
    Z.length = R.length ∧
    (∀ row ∈ Z, ∀ z ∈ row, z ≠ some 0 ∧ z ≠ none) ∧
    (∀ r ∈ R, r ≠ some 0 ∧ r ≠ none) := by
  simp only [select_all_events] at h
  cases hrs : runStations ts radar G thr stationsData with
  | error err => rw [hrs] at h; exact absurd h (by simp)
  | ok triple =>
    obtain ⟨e0, Z0, R0⟩ := triple
    rw [hrs] at h
    simp only at h
    cases hm : (if 1 < e0.length then merge_overlapping_events e0 else .ok e0) with
    | error err => rw [hm] at h; exact absurd h (by simp)
    | ok events1 =>
      rw [hm] at h
      simp only at h
      cases hrh : reshape10 Z0 with
      | error err => rw [hrh] at h; exact absurd h (by simp)
      | ok rows =>
        rw [hrh] at h
        simp only at h
        by_cases hlen : rows.length = R0.length
        · rw [if_pos hlen] at h
          simp only [Except.ok.injEq, Prod.mk.injEq] at h
          obtain ⟨_, h2, h3⟩ := h
          subst h2; subst h3
          refine ⟨by simp [List.length_map], ?_, ?_⟩
          · intro row hrow
            obtain ⟨p, hpP, hfst⟩ := List.mem_map.mp hrow
            subst hfst
            exact (filtered_pairs_props (rows.zip R0) p hpP).1
          · intro r hr
            obtain ⟨p, hpP, hsnd⟩ := List.mem_map.mp hr
            subst hsnd
            exact (filtered_pairs_props (rows.zip R0) p hpP).2
        · rw [if_neg hlen] at h
          exact absurd h (by simp)

/-- C7 witness: a concrete successful assembly satisfies all three
invariants. -/
theorem c7_assembler_invariants_witness :
    ([List.replicate 10 (some 1)] : List (List FVal)).length =
      ([some 1] : List FVal).length ∧
    (∀ row ∈ ([List.replicate 10 (some 1)] : List (List FVal)),
      ∀ z ∈ row, z ≠ some 0 ∧ z ≠ none) ∧
    (∀ r ∈ ([some 1] : List FVal), r ≠ some 0 ∧ r ≠ none) :=
  c7_assembler_invariants [("A", valsOne)] tsHour radarConst11 2 (1/10)
    [evOneOut] [List.replicate 10 (some 1)] [some 1] (by with_unfolding_all rfl)
